import Mathlib

/-!
Verification of the preact-embed widget lifecycle engine.

The definitions below are a shallow embedding of the repository's source:
the kebab-to-camel name conversion and per-attribute value coercion
(`camelCase`, `getPropsFromAttributes`), the property collection and merge
(`collectProps` with JavaScript object-spread semantics), the event bus
(`HabitatEventBus`), and the mount/update/unmount lifecycle of `habitat`'s
`renderOne` together with its lazy `IntersectionObserver` integration.

Modelling conventions:
* JavaScript numbers are modelled exactly, as unnormalised integer
  fractions (plus the special values `Infinity`, `-Infinity` and `NaN`);
  no claim under scrutiny depends on floating-point rounding.
* Host elements are identified by natural numbers; the document markup of
  an element (its attributes and embedded JSON script blocks) is supplied
  by an environment function. The platform's shadow-tree attachment is at
  the external-collaborator boundary and is modelled as always yielding a
  fresh root.
* Lifecycle hooks are modelled as observation-only loggers (each
  invocation is recorded); no claim exercises the value-replacing path of
  `onBeforeMount`.
* `JSON.parse` and the emit loop of the event bus recurse on explicit
  fuel, mirroring that the JavaScript originals may diverge (the emit
  loop) or recurse on input size (the parser).
-/

namespace PreactEmbed

/-- An exact (unnormalised) decimal fraction `nume / den`; JavaScript
numbers are modelled exactly, so no claim depends on float rounding. A
parse produces one canonical representative per input string. -/
structure JsRat where
  nume : Int
  den : Nat
deriving DecidableEq

/-- The rational a `JsRat` denotes. -/
def JsRat.toRat (q : JsRat) : ℚ := (q.nume : ℚ) / (q.den : ℚ)

/-- Negation of an exact fraction. -/
def JsRat.neg (q : JsRat) : JsRat := ⟨-q.nume, q.den⟩

/-- A JavaScript number as produced by `Number(...)`: an exact finite
value, an infinity, or `NaN`. -/
inductive JsNumber where
  | finite (q : JsRat)
  | inf
  | negInf
  | nan
deriving DecidableEq

/-- A JavaScript value as handled by the prop-extraction pipeline. -/
inductive JsVal where
  | str (s : String)
  | num (n : JsNumber)
  | bool (b : Bool)
  | null
  | obj (fields : List (String × JsVal))
  | arr (elems : List JsVal)

/-- `typeof v === 'object'` for a parsed JSON value: true exactly on
objects, arrays and `null` (JavaScript's `typeof null` is `'object'`). -/
def typeofIsObject : JsVal → Bool
  | .obj _ => true
  | .arr _ => true
  | .null => true
  | _ => false

/-- The parse result is an object or an array (the spec's wording for the
structured-data kinds kept by attribute coercion). -/
def isObjOrArr : JsVal → Bool
  | .obj _ => true
  | .arr _ => true
  | _ => false

-- ===========================================================================
-- camelCase (source: `camelCase` in the index module, `cc` in the lite one):
--   str.replace(/-([a-z])/gi, (_, letter) => letter.toUpperCase())
-- ===========================================================================

/-- The character class `[a-z]` under the regex `i` flag: an ASCII letter. -/
def isAsciiLetter (c : Char) : Bool :=
  (97 ≤ c.toNat && c.toNat ≤ 122) || (65 ≤ c.toNat && c.toNat ≤ 90)

/-- `String.prototype.toUpperCase` restricted to one character; on the
ASCII letters matched by `[a-z]/i` it maps `a-z` to `A-Z` and leaves
`A-Z` unchanged. -/
def upChar (c : Char) : Char :=
  if 97 ≤ c.toNat ∧ c.toNat ≤ 122 then Char.ofNat (c.toNat - 32) else c

/-- Left-to-right scan of the global regex replacement: a hyphen followed
by an ASCII letter is replaced by the upper-cased letter; everything else
is copied and the scan resumes one character later. -/
def camelCaseAux : List Char → List Char
  | [] => []
  | c :: rest =>
      if c = '-' then
        match rest with
        | [] => ['-']
        | c2 :: rest2 =>
            if isAsciiLetter c2 then upChar c2 :: camelCaseAux rest2
            else '-' :: camelCaseAux (c2 :: rest2)
      else c :: camelCaseAux rest

/-- Source `camelCase` / `cc`: kebab-case to camelCase conversion. -/
def camelCase (s : String) : String :=
  ⟨camelCaseAux s.data⟩

/-- Every hyphen in the character list is immediately followed by an
ASCII letter (so no trailing hyphen and no double hyphen). -/
def hyphensPrecedeLetters : List Char → Bool
  | [] => true
  | c :: rest =>
      if c = '-' then
        match rest with
        | [] => false
        | c2 :: _ => isAsciiLetter c2 && hyphensPrecedeLetters rest
      else hyphensPrecedeLetters rest

-- ===========================================================================
-- JavaScript Number(...) conversion, modelled exactly over rationals
-- ===========================================================================

/-- ASCII whitespace recognised by `Number(...)` and `String.prototype.trim`. -/
def isWsChar (c : Char) : Bool :=
  c = ' ' || c = '\t' || c = '\n' || c = '\r' || c = '\x0b' || c = '\x0c'

def dropWs (l : List Char) : List Char := l.dropWhile isWsChar

def isDigit (c : Char) : Bool := 48 ≤ c.toNat && c.toNat ≤ 57

def digitVal (c : Char) : Nat := c.toNat - 48

/-- Value of a digit string read in base 10. -/
def digitsVal (l : List Char) : Nat := l.foldl (fun a c => a * 10 + digitVal c) 0

def isBaseDigit (base : Nat) (c : Char) : Bool :=
  if base = 16 then
    isDigit c || (97 ≤ c.toNat && c.toNat ≤ 102) || (65 ≤ c.toNat && c.toNat ≤ 70)
  else
    48 ≤ c.toNat && c.toNat < 48 + base

def baseDigitVal (c : Char) : Nat :=
  if 97 ≤ c.toNat then c.toNat - 87
  else if 65 ≤ c.toNat then c.toNat - 55
  else c.toNat - 48

def baseDigitsVal (base : Nat) (l : List Char) : Nat :=
  l.foldl (fun a c => a * base + baseDigitVal c) 0

/-- The remainder of a numeric string may hold only trailing whitespace. -/
def onlyWsLeft (l : List Char) : Bool := (dropWs l).isEmpty

/-- Parse an optional exponent part `(e|E)(+|-)?digits`; if no well-formed
exponent follows, consume nothing. Returns the signed exponent. -/
def parseExpPart (l : List Char) : Int × List Char :=
  match l with
  | c :: r =>
      if c = 'e' ∨ c = 'E' then
        match r with
        | '+' :: r2 =>
            let ds := r2.takeWhile isDigit
            if ds.isEmpty then (0, l) else ((digitsVal ds : Int), r2.drop ds.length)
        | '-' :: r2 =>
            let ds := r2.takeWhile isDigit
            if ds.isEmpty then (0, l) else (-(digitsVal ds : Int), r2.drop ds.length)
        | _ =>
            let ds := r.takeWhile isDigit
            if ds.isEmpty then (0, l) else ((digitsVal ds : Int), r.drop ds.length)
      else (0, l)
  | [] => (0, [])

/-- Apply a base-10 exponent to an exact fraction. -/
def applyExp (q : JsRat) (e : Int) : JsRat :=
  if 0 ≤ e then ⟨q.nume * (10 : Int) ^ e.toNat, q.den⟩
  else ⟨q.nume, q.den * 10 ^ (-e).toNat⟩

/-- Integer digits `ds` and fractional digits `fs` as one exact fraction
over the common denominator `10 ^ fs.length`. -/
def decimalVal (ds fs : List Char) : JsRat :=
  ⟨(digitsVal ds : Int) * (10 : Int) ^ fs.length + (digitsVal fs : Int), 10 ^ fs.length⟩

/-- Longest prefix of `l` forming an unsigned decimal literal
(`digits`, `digits.digits?`, `.digits`, each with an optional exponent). -/
def parseDecBody (l : List Char) : Option (JsRat × List Char) :=
  let ds := l.takeWhile isDigit
  let r1 := l.drop ds.length
  if ds.isEmpty then
    match r1 with
    | '.' :: r2 =>
        let fs := r2.takeWhile isDigit
        if fs.isEmpty then none
        else
          let (e, r3) := parseExpPart (r2.drop fs.length)
          some (applyExp (decimalVal [] fs) e, r3)
    | _ => none
  else
    match r1 with
    | '.' :: r2 =>
        let fs := r2.takeWhile isDigit
        let (e, r3) := parseExpPart (r2.drop fs.length)
        some (applyExp (decimalVal ds fs) e, r3)
    | _ =>
        let (e, r3) := parseExpPart r1
        some (applyExp (decimalVal ds []) e, r3)

/-- An unsigned numeric body: the literal `Infinity` or a decimal literal,
followed by nothing but whitespace. -/
def unsignedNumBody (l : List Char) (neg : Bool) : JsNumber :=
  if l.take 8 = "Infinity".data ∧ onlyWsLeft (l.drop 8) then
    if neg then .negInf else .inf
  else
    match parseDecBody l with
    | some (q, rest) =>
        if onlyWsLeft rest then .finite (if neg then q.neg else q) else .nan
    | none => .nan

def nonDecimalBody (l : List Char) (base : Nat) : JsNumber :=
  let ds := l.takeWhile (isBaseDigit base)
  if ds.isEmpty then .nan
  else if onlyWsLeft (l.drop ds.length) then .finite ⟨(baseDigitsVal base ds : Int), 1⟩
  else .nan

/-- `Number(v)` for a string `v`, per the string-numeric-literal grammar:
whitespace-only is `0`, hex/octal/binary literals are unsigned, a decimal
literal or `Infinity` may carry a sign, anything else is `NaN`.
Values are modelled exactly (arbitrary precision, no float rounding). -/
def jsToNumber (v : String) : JsNumber :=
  match dropWs v.data with
  | [] => .finite ⟨0, 1⟩
  | '0' :: c :: rest =>
      if c = 'x' ∨ c = 'X' then nonDecimalBody rest 16
      else if c = 'o' ∨ c = 'O' then nonDecimalBody rest 8
      else if c = 'b' ∨ c = 'B' then nonDecimalBody rest 2
      else unsignedNumBody ('0' :: c :: rest) false
  | '+' :: rest => unsignedNumBody rest false
  | '-' :: rest => unsignedNumBody rest true
  | l => unsignedNumBody l false

-- ===========================================================================
-- JSON.parse, modelled as a fuel-based recursive-descent parser
-- ===========================================================================

/-- JSON whitespace: space, tab, line feed, carriage return. -/
def isJsonWs (c : Char) : Bool := c = ' ' || c = '\t' || c = '\n' || c = '\r'

def dropJsonWs (l : List Char) : List Char := l.dropWhile isJsonWs

def hexDigitVal (c : Char) : Nat := baseDigitVal c

/-- Body of a JSON string after the opening quote; returns the decoded
characters and the remainder after the closing quote. A `\uXXXX` escape
is mapped through the scalar-value constructor (lone surrogates collapse
to the default character; no claim depends on them). -/
def jsonStringBody (fuel : Nat) (l : List Char) : Option (List Char × List Char) :=
  match fuel, l with
  | 0, _ => none
  | _, [] => none
  | f + 1, c :: rest =>
      if c = '"' then some ([], rest)
      else if c = '\\' then
        match rest with
        | [] => none
        | e :: r2 =>
            if e = '"' ∨ e = '\\' ∨ e = '/' then
              (jsonStringBody f r2).map (fun p => (e :: p.1, p.2))
            else if e = 'b' then (jsonStringBody f r2).map (fun p => ('\x08' :: p.1, p.2))
            else if e = 'f' then (jsonStringBody f r2).map (fun p => ('\x0c' :: p.1, p.2))
            else if e = 'n' then (jsonStringBody f r2).map (fun p => ('\n' :: p.1, p.2))
            else if e = 'r' then (jsonStringBody f r2).map (fun p => ('\r' :: p.1, p.2))
            else if e = 't' then (jsonStringBody f r2).map (fun p => ('\t' :: p.1, p.2))
            else if e = 'u' then
              match r2 with
              | h1 :: h2 :: h3 :: h4 :: r3 =>
                  if isBaseDigit 16 h1 && isBaseDigit 16 h2 && isBaseDigit 16 h3 && isBaseDigit 16 h4 then
                    let code := ((hexDigitVal h1 * 16 + hexDigitVal h2) * 16 + hexDigitVal h3) * 16 + hexDigitVal h4
                    (jsonStringBody f r3).map (fun p => (Char.ofNat code :: p.1, p.2))
                  else none
              | _ => none
            else none
      else if c.toNat < 32 then none
      else (jsonStringBody f rest).map (fun p => (c :: p.1, p.2))

/-- A JSON number literal: `-? (0 | [1-9]digits) (.digits+)? ((e|E)(+|-)?digits+)?`. -/
def jsonNumBody (l : List Char) : Option (JsRat × List Char) :=
  let (neg, l1) : Bool × List Char :=
    match l with
    | '-' :: r => (true, r)
    | _ => (false, l)
  let intPart : Option (List Char × List Char) :=
    match l1 with
    | '0' :: r => some (['0'], r)
    | c :: _ =>
        if 49 ≤ c.toNat ∧ c.toNat ≤ 57 then
          let ds := l1.takeWhile isDigit
          some (ds, l1.drop ds.length)
        else none
    | [] => none
  match intPart with
  | none => none
  | some (ip, r1) =>
      let fracRes : Option (JsRat × List Char) :=
        match r1 with
        | '.' :: r2 =>
            let fs := r2.takeWhile isDigit
            if fs.isEmpty then none
            else some (decimalVal ip fs, r2.drop fs.length)
        | _ => some (decimalVal ip [], r1)
      match fracRes with
      | none => none
      | some (m, r3) =>
          match r3 with
          | c :: r4 =>
              if c = 'e' ∨ c = 'E' then
                let (sgn, r5) : Int × List Char :=
                  match r4 with
                  | '+' :: r6 => (1, r6)
                  | '-' :: r6 => (-1, r6)
                  | _ => (1, r4)
                let ds := r5.takeWhile isDigit
                if ds.isEmpty then none
                else
                  let q := applyExp m (sgn * (digitsVal ds : Int))
                  some (if neg then q.neg else q, r5.drop ds.length)
              else some (if neg then m.neg else m, r3)
          | [] => some (if neg then m.neg else m, [])

mutual

/-- One JSON value, leading whitespace allowed; returns the remainder. -/
def jsonVal (fuel : Nat) (l : List Char) : Option (JsVal × List Char) :=
  match fuel with
  | 0 => none
  | f + 1 =>
      match dropJsonWs l with
      | [] => none
      | c :: rest =>
          if c = '\x7b' then jsonMembers f (dropJsonWs rest) true
          else if c = '[' then jsonElems f (dropJsonWs rest) true
          else if c = '"' then
            (jsonStringBody (rest.length + 1) rest).map (fun p => (JsVal.str ⟨p.1⟩, p.2))
          else if (c :: rest).take 4 = "true".data then some (.bool true, (c :: rest).drop 4)
          else if (c :: rest).take 5 = "false".data then some (.bool false, (c :: rest).drop 5)
          else if (c :: rest).take 4 = "null".data then some (.null, (c :: rest).drop 4)
          else (jsonNumBody (c :: rest)).map (fun p => (JsVal.num (.finite p.1), p.2))

/-- Members of a JSON object after the opening brace (and whitespace);
`first` is true before any member has been read. -/
def jsonMembers (fuel : Nat) (l : List Char) (first : Bool) : Option (JsVal × List Char) :=
  match fuel with
  | 0 => none
  | f + 1 =>
      match l with
      | '\x7d' :: rest =>
          if first then some (.obj [], rest) else none
      | '"' :: rest =>
          match jsonStringBody (rest.length + 1) rest with
          | none => none
          | some (key, r2) =>
              match dropJsonWs r2 with
              | ':' :: r3 =>
                  match jsonVal f r3 with
                  | none => none
                  | some (v, r4) =>
                      match dropJsonWs r4 with
                      | ',' :: r5 =>
                          match jsonMembers f (dropJsonWs r5) false with
                          | some (.obj fs, r6) => some (.obj ((⟨key⟩, v) :: fs), r6)
                          | _ => none
                      | '\x7d' :: r5 => some (.obj [(⟨key⟩, v)], r5)
                      | _ => none
              | _ => none
      | _ => none

/-- Elements of a JSON array after the opening bracket (and whitespace). -/
def jsonElems (fuel : Nat) (l : List Char) (first : Bool) : Option (JsVal × List Char) :=
  match fuel with
  | 0 => none
  | f + 1 =>
      match l with
      | ']' :: rest =>
          if first then some (.arr [], rest) else none
      | _ =>
          match jsonVal f l with
          | none => none
          | some (v, r1) =>
              match dropJsonWs r1 with
              | ',' :: r2 =>
                  match jsonElems f (dropJsonWs r2) false with
                  | some (.arr es, r3) => some (.arr (v :: es), r3)
                  | _ => none
              | ']' :: r2 => some (.arr [v], r2)
              | _ => none

end

/-- `JSON.parse(s)`: the whole string must be one JSON document. -/
def jsonParse (s : String) : Option JsVal :=
  match jsonVal (s.data.length + 2) s.data with
  | some (v, rest) => if (dropJsonWs rest).isEmpty then some v else none
  | none => none

/-- `safeJsonParse(json, fallback)` from the source: `JSON.parse` with a
fallback on failure. -/
def safeJsonParse (s : String) (fallback : JsVal) : JsVal :=
  (jsonParse s).getD fallback

-- ===========================================================================
-- Attribute value coercion (source: the body of `getPropsFromAttributes`,
-- identical to `pv` in the lite module)
-- ===========================================================================

/-- The coercion cascade applied to each `data-prop-*` attribute value:
`true`, `false`, `null` literals first, then `Number(...)` when not `NaN`
and the value is nonempty, then `JSON.parse` keeping the result when
`typeof parsed === 'object'`, otherwise the raw string. -/
def parseAttrValue (v : String) : JsVal :=
  if v = "true" then .bool true
  else if v = "false" then .bool false
  else if v = "null" then .null
  else if jsToNumber v ≠ .nan ∧ v ≠ "" then .num (jsToNumber v)
  else
    match jsonParse v with
    | some parsed => if typeofIsObject parsed then parsed else .str v
    | none => .str v

/-- The same cascade with its last stage transcribed from the
specification's words instead of the source: the parsed structured value
is kept "only if it is an object or array" (so not when it is `null`). -/
def parseAttrValueSpec (v : String) : JsVal :=
  if v = "true" then .bool true
  else if v = "false" then .bool false
  else if v = "null" then .null
  else if jsToNumber v ≠ .nan ∧ v ≠ "" then .num (jsToNumber v)
  else
    match jsonParse v with
    | some parsed => if isObjOrArr parsed then parsed else .str v
    | none => .str v

/-- `v` is the JSON value `null`. -/
def isNullVal : JsVal → Bool
  | .null => true
  | _ => false

/-- The specification's cascade amended as little as the code forces: the
parsed structured value is kept when it is an object, an array, or
`null` (the last admitted because the source tests
`typeof parsed === 'object'`, which `null` satisfies). -/
def parseAttrValueSpecAmended (v : String) : JsVal :=
  if v = "true" then .bool true
  else if v = "false" then .bool false
  else if v = "null" then .null
  else if jsToNumber v ≠ .nan ∧ v ≠ "" then .num (jsToNumber v)
  else
    match jsonParse v with
    | some parsed => if isObjOrArr parsed || isNullVal parsed then parsed else .str v
    | none => .str v

-- ===========================================================================
-- Property sets with JavaScript object semantics
-- ===========================================================================

/-- A JavaScript object as an insertion-ordered association list. -/
abbrev Props := List (String × JsVal)

/-- Property lookup; the last binding for a key wins, matching assignment
semantics on lists that may carry several bindings of one key. -/
def getProp : Props → String → Option JsVal
  | [], _ => none
  | (k', v) :: rest, k =>
      match getProp rest k with
      | some w => some w
      | none => if k' = k then some v else none

def hasKey : Props → String → Bool
  | [], _ => false
  | (k', _) :: rest, k => k' = k || hasKey rest k

/-- Overwrite every binding of `k` in place (on the duplicate-free lists
a JavaScript object yields there is at most one). -/
def setKeyAll : Props → String → JsVal → Props
  | [], _, _ => []
  | (k', w) :: rest, k, v => (if k' = k then (k, v) else (k', w)) :: setKeyAll rest k v

/-- `p[k] = v`: overwrite the binding in place when the key is present,
otherwise append it (JavaScript property-assignment order). -/
def setKey (p : Props) (k : String) (v : JsVal) : Props :=
  if hasKey p k then setKeyAll p k v else p ++ [(k, v)]

/-- Spread a list of key/value pairs over `p`, later entries overwriting. -/
def spreadPairs (p : Props) (q : Props) : Props :=
  q.foldl (fun acc e => setKey acc e.1 e.2) p

/-- `\x7b ...p, ...v \x7d` for an arbitrary spread value `v`: objects
contribute their fields, arrays and strings their indexed elements,
primitives contribute nothing. -/
def spreadVal (p : Props) (v : JsVal) : Props :=
  match v with
  | .obj fs => spreadPairs p fs
  | .arr es => spreadPairs p ((es.enum).map (fun ie => (toString ie.1, ie.2)))
  | .str s => spreadPairs p ((s.data.enum).map (fun ic => (toString ic.1, JsVal.str ⟨[ic.2]⟩)))
  | _ => p

-- ===========================================================================
-- Prop extraction from host-element markup
-- ===========================================================================

/-- The markup of a host element, as far as prop extraction reads it: its
attributes in document order and the text of its embedded JSON script
blocks in document order. -/
structure EmbedElem where
  attrs : List (String × String)
  blocks : List String

/-- `String.prototype.trim` over the ASCII whitespace in our alphabet. -/
def jsTrim (s : String) : String :=
  ⟨((s.data.dropWhile isWsChar).reverse.dropWhile isWsChar).reverse⟩

/-- `name.startsWith(pre)`, character-wise. -/
def strBeginsWith (s pre : String) : Bool :=
  pre.data.isPrefixOf s.data

/-- `name.slice(n)`: drop the first `n` characters. -/
def strDropChars (s : String) (n : Nat) : String :=
  ⟨s.data.drop n⟩

/-- Source `getPropsFromAttributes`: every `data-prop-` attribute
contributes one property, named by camel-casing the rest of the
attribute name, valued by the coercion cascade. -/
def getPropsFromAttributes (el : EmbedElem) : Props :=
  el.attrs.foldl
    (fun props a =>
      if strBeginsWith a.1 "data-prop-" then
        setKey props (camelCase (strDropChars a.1 10)) (parseAttrValue a.2)
      else props)
    []

/-- Source `getPropsFromScripts`: each embedded block is trimmed, parsed
with `safeJsonParse(content, \x7b\x7d)`, and spread over the accumulated
properties in document order. -/
def getPropsFromScripts (el : EmbedElem) : Props :=
  el.blocks.foldl
    (fun props content =>
      let t := jsTrim content
      if t = "" then props
      else spreadVal props (safeJsonParse t (.obj [])))
    []

/-- Source `collectProps`: `\x7b ...defaultProps, ...scriptProps,
...attrProps \x7d`. -/
def collectProps (el : EmbedElem) (defaults : Props) : Props :=
  spreadPairs (spreadPairs (spreadPairs [] defaults) (getPropsFromScripts el))
    (getPropsFromAttributes el)

-- ===========================================================================
-- HabitatEventBus: a topic map of insertion-ordered callback sets.
-- A JavaScript Set is modelled as an ordered entry list with tombstones:
-- `delete` marks the entry, `add` appends when no live entry exists, and
-- the live `forEach` iterator walks the entry list by position, skipping
-- tombstones and visiting entries appended during the walk.
-- ===========================================================================

/-- What a callback does to the bus when invoked: a sequence of `on` /
`off` calls (possibly empty for a pure callback). -/
inductive BusOp where
  | sub (topic : String) (id : Nat)
  | unsub (topic : String) (id : Nat)

/-- The bus: topic name to entry list (callback id, tombstoned?). -/
structure Bus where
  topics : List (String × List (Nat × Bool))

def entriesOf (b : Bus) (t : String) : List (Nat × Bool) :=
  match b.topics.find? (fun e => e.1 = t) with
  | some e => e.2
  | none => []

def setEntries (b : Bus) (t : String) (es : List (Nat × Bool)) : Bus :=
  if b.topics.any (fun e => e.1 = t) then
    ⟨b.topics.map (fun e => if e.1 = t then (t, es) else e)⟩
  else ⟨b.topics ++ [(t, es)]⟩

/-- `on(topic, cb)`: create the topic set on demand, then `Set.add`. -/
def busOn (b : Bus) (t : String) (id : Nat) : Bus :=
  let es := entriesOf b t
  if es.any (fun e => e.1 = id ∧ e.2 = false) then setEntries b t es
  else setEntries b t (es ++ [(id, false)])

/-- `Set.delete`: tombstone the live entry for `id`, if any. -/
def tombstone : List (Nat × Bool) → Nat → List (Nat × Bool)
  | [], _ => []
  | (i, d) :: rest, id =>
      if i = id ∧ d = false then (i, true) :: rest
      else (i, d) :: tombstone rest id

/-- `off(topic, cb)`: delete from the topic's set when the topic exists. -/
def busOff (b : Bus) (t : String) (id : Nat) : Bus :=
  if b.topics.any (fun e => e.1 = t) then setEntries b t (tombstone (entriesOf b t) id)
  else b

def applyOps (b : Bus) : List BusOp → Bus
  | [] => b
  | .sub t id :: rest => applyOps (busOn b t id) rest
  | .unsub t id :: rest => applyOps (busOff b t id) rest

/-- The live `forEach` walk of `emit`, from entry position `idx`; invoked
callbacks run their bus operations at once, and the walk re-reads the
(possibly grown) entry list each step. `fuel` bounds the walk because a
callback may keep appending entries, just as the JavaScript loop may
never terminate. Returns the bus and the invocation log. -/
def emitLoop (env : Nat → List BusOp) (t : String) :
    Nat → Nat → Bus → List Nat → Bus × List Nat
  | 0, _, b, log => (b, log)
  | fuel + 1, idx, b, log =>
      let es := entriesOf b t
      if h : idx < es.length then
        let e := es.get ⟨idx, h⟩
        if e.2 then emitLoop env t fuel (idx + 1) b log
        else emitLoop env t fuel (idx + 1) (applyOps b (env e.1)) (log ++ [e.1])
      else (b, log)

/-- Source `emit`: dispatch over the topic's live callback set. The
try/catch around each callback is invisible here because modelled
callbacks do not throw. -/
def emitLive (env : Nat → List BusOp) (t : String) (fuel : Nat) (b : Bus) :
    Bus × List Nat :=
  emitLoop env t fuel 0 b []

/-- The callback ids of the live (non-tombstoned) entries, in order. -/
def liveIds (es : List (Nat × Bool)) : List Nat :=
  es.filterMap (fun e => if e.2 then none else some e.1)

/-- The live callbacks of a topic, in insertion order. -/
def activeSubs (b : Bus) (t : String) : List Nat :=
  liveIds (entriesOf b t)

/-- Modelled from the spec: `emit` dispatching to a snapshot of the
topic's subscriber set taken at emit time, each snapshot member invoked
even if the pass unsubscribes it before it is reached. -/
def emitSnapshot (env : Nat → List BusOp) (t : String) (b : Bus) :
    Bus × List Nat :=
  (activeSubs b t).foldl
    (fun (st : Bus × List Nat) id => (applyOps st.1 (env id), st.2 ++ [id]))
    (b, [])

-- ===========================================================================
-- The habitat lifecycle: renderOne, the unmount and update closures, and
-- the lazy IntersectionObserver integration.
-- ===========================================================================

/-- A render target: the host element itself or a shadow root attached
to it. -/
inductive Root where
  | host (el : Nat)
  | shadow (el : Nat) (n : Nat)
deriving DecidableEq

/-- One invocation of the external component runtime: `render(vnode(p), r)`,
`hydrate(vnode(p), r)`, or the empty render `render(null, r)`. -/
inductive REvent where
  | paint (r : Root) (p : Props)
  | hyd (r : Root) (p : Props)
  | clearR (r : Root)

/-- The `WidgetInstance` object handed to the caller. `props` is the
plain data field captured at creation; `cell` identifies the
closure-local mutable `props` variable shared with the `update` closure;
`root` is captured by the `unmount`/`update` closures. -/
structure WInst where
  element : Nat
  props : Props
  cell : Nat
  root : Root

/-- A live `IntersectionObserver` made by a lazy mount: it captured the
render target, the mount-time vnode props and the render-vs-hydrate
choice; `active` is false once `disconnect()` has run. -/
structure Observer where
  element : Nat
  root : Root
  props : Props
  useHydrate : Bool
  active : Bool

/-- The habitat options this model distinguishes. Hooks are modelled as
observation-only loggers, present or absent. -/
structure Config where
  defaultProps : Props
  clean : Bool
  useHydrate : Bool
  useShadow : Bool
  lazy : Bool
  hasMounted : Bool
  hasUnmount : Bool

/-- The mutable world of one habitat factory: the instance registry, the
per-element habitat metadata, the closure-local prop variables, the
observers, the runtime-invocation log, the hook logs and the
`console.warn` diagnostic count. -/
structure HState where
  instances : List WInst
  meta : List (Nat × Root)
  cells : List (Nat × Props)
  observers : List (Nat × Observer)
  renderLog : List REvent
  mountedLog : List Nat
  unmountLog : List Nat
  warnCount : Nat
  nextCell : Nat
  nextObs : Nat
  nextShadow : Nat

def initState : HState := ⟨[], [], [], [], [], [], [], 0, 0, 0, 0⟩

def lookupMeta : List (Nat × Root) → Nat → Option Root
  | [], _ => none
  | (e, r) :: rest, el => if e = el then some r else lookupMeta rest el

/-- `setHabitatMeta`: overwrite the element's metadata or attach it. -/
def setMetaList : List (Nat × Root) → Nat → Root → List (Nat × Root)
  | [], el, r => [(el, r)]
  | (e, r0) :: rest, el, r =>
      if e = el then (el, r) :: rest else (e, r0) :: setMetaList rest el r

def lookupCell : List (Nat × Props) → Nat → Option Props
  | [], _ => none
  | (i, p) :: rest, id => if i = id then some p else lookupCell rest id

/-- Reassign the closure-local `props` variable identified by `id`. -/
def setCellList : List (Nat × Props) → Nat → Props → List (Nat × Props)
  | [], _, _ => []
  | (i, p) :: rest, id, q =>
      (if i = id then (id, q) else (i, p)) :: setCellList rest id q

def lookupObs : List (Nat × Observer) → Nat → Option Observer
  | [], _ => none
  | (i, o) :: rest, id => if i = id then some o else lookupObs rest id

/-- `observer.disconnect()`: mark the observer inactive. -/
def deactivateObs : List (Nat × Observer) → Nat → List (Nat × Observer)
  | [], _ => []
  | (i, o) :: rest, id =>
      (if i = id then (i, { o with active := false }) else (i, o)) :: deactivateObs rest id

/-- `instances.findIndex(i => i.element === element)` + `splice(idx, 1)`:
remove the first registry entry for the element, if any. -/
def removeFirstInst : List WInst → Nat → List WInst
  | [], _ => []
  | i :: rest, el => if i.element = el then rest else i :: removeFirstInst rest el

/-- The `unmount` closure of `renderOne`, keyed by its captured element
and render target: empty-render the target, clear the habitat metadata,
invoke the on-unmount hook, splice the first matching registry entry.
It has no already-unmounted guard and never touches the observers. -/
def runUnmount (cfg : Config) (el : Nat) (r : Root) (st : HState) : HState :=
  { st with
    renderLog := st.renderLog ++ [.clearR r],
    meta := st.meta.filter (fun e => e.1 ≠ el),
    unmountLog := if cfg.hasUnmount then st.unmountLog ++ [el] else st.unmountLog,
    instances := removeFirstInst st.instances el }

/-- Source `renderOne`: occupied-host check (diagnostic + forced unmount
of the prior instance), prop collection with override precedence, render
target selection, lazy observation or synchronous activation, metadata
and registry bookkeeping, then the after-mount hook. The `clean` step
only removes untracked child nodes and the before-mount hook is an
observation-only logger, so neither changes the modelled state. -/
def renderOne (cfg : Config) (doc : Nat → EmbedElem) (el : Nat) (ov : Props)
    (st0 : HState) : HState × WInst :=
  let st1 :=
    match lookupMeta st0.meta el with
    | some r => runUnmount cfg el r { st0 with warnCount := st0.warnCount + 1 }
    | none => st0
  let props := collectProps (doc el) (spreadPairs (spreadPairs [] cfg.defaultProps) ov)
  let root := if cfg.useShadow then Root.shadow el st1.nextShadow else Root.host el
  let st2 := if cfg.useShadow then { st1 with nextShadow := st1.nextShadow + 1 } else st1
  let st3 :=
    if cfg.lazy then
      { st2 with
        observers := st2.observers ++ [(st2.nextObs, (⟨el, root, props, cfg.useHydrate, true⟩ : Observer))],
        nextObs := st2.nextObs + 1 }
    else
      { st2 with
        renderLog := st2.renderLog ++
          [if cfg.useHydrate then REvent.hyd root props else REvent.paint root props] }
  let cid := st3.nextCell
  let st4 := { st3 with cells := st3.cells ++ [(cid, props)], nextCell := cid + 1 }
  let st5 := { st4 with meta := setMetaList st4.meta el root }
  let inst : WInst := ⟨el, props, cid, root⟩
  let st6 := { st5 with instances := st5.instances ++ [inst] }
  let st7 := if cfg.hasMounted then { st6 with mountedLog := st6.mountedLog ++ [el] } else st6
  (st7, inst)

/-- The `update` closure: merge the partial props over the closure-local
`props` variable, reassign it, and re-render (always `render`, never
`hydrate`) against the captured target. The instance record itself is
untouched. -/
def runUpdate (inst : WInst) (newProps : Props) (st : HState) : HState :=
  match lookupCell st.cells inst.cell with
  | some cur =>
      let merged := spreadPairs (spreadPairs [] cur) newProps
      { st with
        cells := setCellList st.cells inst.cell merged,
        renderLog := st.renderLog ++ [.paint inst.root merged] }
  | none => st

def obsEvent (o : Observer) : REvent :=
  if o.useHydrate then .hyd o.root o.props else .paint o.root o.props

/-- The platform delivers a batch of intersection entries to an observer.
A disconnected observer receives no callback; an active one runs the
source callback: for every intersecting entry, `doRender()` then
`observer.disconnect()` — the disconnect does not abort the loop over
the remaining entries of the same batch. -/
def deliver (obsId : Nat) (entries : List Bool) (st : HState) : HState :=
  match lookupObs st.observers obsId with
  | some o =>
      if o.active then
        entries.foldl
          (fun s isInter =>
            if isInter then
              { s with
                renderLog := s.renderLog ++ [obsEvent o],
                observers := deactivateObs s.observers obsId }
            else s)
          st
      else st
  | none => st

/-- A sequence of single-entry visibility events. -/
def deliverSeq (obsId : Nat) (bs : List Bool) (st : HState) : HState :=
  bs.foldl (fun s b => deliver obsId [b] s) st

-- ===========================================================================
-- Small helpers and concrete fixtures used by the theorems
-- ===========================================================================

/-- Left-biased choice on optional property values. -/
def orO (a b : Option JsVal) : Option JsVal :=
  match a with
  | some w => some w
  | none => b

/-- A document whose host elements carry no markup at all. -/
def docEmpty : Nat → EmbedElem := fun _ => ⟨[], []⟩

/-- Options: no defaults, eager, light DOM, both post hooks present. -/
def cfgPlain : Config := ⟨[], false, false, false, false, true, true⟩

/-- `cfgPlain` with deferred (lazy) activation requested. -/
def cfgLazy : Config := { cfgPlain with lazy := true }

/-- `cfgPlain` with the caller default `a = 1`. -/
def cfgDef1 : Config := { cfgPlain with defaultProps := [("a", JsVal.num (.finite ⟨1, 1⟩))] }

/-- The host element of the precedence example: one recognised attribute
`data-prop-c="5"` and one embedded block `\x7b"b":3,"c":4\x7d`. -/
def elemC6 : EmbedElem := ⟨[("data-prop-c", "5")], ["\x7b\"b\":3,\"c\":4\x7d"]⟩

/-- The caller defaults of the precedence example: `\x7ba:1,b:2\x7d`. -/
def defaultsC6 : Props := [("a", JsVal.num (.finite ⟨1, 1⟩)), ("b", JsVal.num (.finite ⟨2, 1⟩))]

/-- Callback behaviours where callback 0 subscribes callback 1 to `x`
during dispatch and every other callback is pure. -/
def envSubDuring : Nat → List BusOp :=
  fun id => if id = 0 then [BusOp.sub "x" 1] else []

/-- A bus with callback 0 subscribed to `x`. -/
def busOne : Bus := busOn ⟨[]⟩ "x" 0

/-- Callback behaviours where callback 0 unsubscribes callback 1 from `x`
during dispatch and every other callback is pure. -/
def envUnsubDuring : Nat → List BusOp :=
  fun id => if id = 0 then [BusOp.unsub "x" 1] else []

/-- A bus with callbacks 0 and 1 subscribed to `x`, in that order. -/
def busTwo : Bus := busOn (busOn ⟨[]⟩ "x" 0) "x" 1

/-- Mount element 0 eagerly (both post hooks configured). -/
def c1Mount : HState × WInst := renderOne cfgPlain docEmpty 0 [] initState

/-- ... then run the instance's unmount closure once ... -/
def c1Once : HState := runUnmount cfgPlain c1Mount.2.element c1Mount.2.root c1Mount.1

/-- ... and a second time on the already-removed instance. -/
def c1Twice : HState := runUnmount cfgPlain c1Mount.2.element c1Mount.2.root c1Once

/-- Mount element 0 with deferred (lazy) activation. -/
def lazyMount : HState × WInst := renderOne cfgLazy docEmpty 0 [] initState

/-- Unmount the lazily mounted instance before its predicate ever fires. -/
def c3AfterUnmount : HState :=
  runUnmount cfgLazy lazyMount.2.element lazyMount.2.root lazyMount.1

/-- Mount element 0 with caller default `a = 1`. -/
def c4Mount : HState × WInst := renderOne cfgDef1 docEmpty 0 [] initState

/-- ... then call the instance's update closure with `\x7bb: 2\x7d`. -/
def c4AfterUpdate : HState :=
  runUpdate c4Mount.2 [("b", JsVal.num (.finite ⟨2, 1⟩))] c4Mount.1

-- ===========================================================================
-- Helper lemmas about property lookup and the object-spread merge
-- ===========================================================================

theorem orO_none_right (a : Option JsVal) : orO a none = a := by
  cases a <;> rfl

theorem getProp_setKeyAll_same (p : Props) (k : String) (v : JsVal) :
    getProp (setKeyAll p k v) k = if hasKey p k then some v else none := by
  induction p with
  | nil => rfl
  | cons e rest ih =>
      obtain ⟨k1, w⟩ := e
      by_cases hk : k1 = k
      · subst hk
        have hstep : setKeyAll ((k1, w) :: rest) k1 v = (k1, v) :: setKeyAll rest k1 v := by
          simp [setKeyAll]
        rw [hstep]
        cases hr : hasKey rest k1 <;> simp [getProp, hasKey, ih, hr]
      · have hstep : setKeyAll ((k1, w) :: rest) k v = (k1, w) :: setKeyAll rest k v := by
          simp [setKeyAll, hk]
        rw [hstep]
        cases hr : hasKey rest k <;> simp [getProp, hasKey, ih, hr, hk]

theorem getProp_setKeyAll_other (p : Props) (k : String) (v : JsVal) (k' : String)
    (hne : k' ≠ k) :
    getProp (setKeyAll p k v) k' = getProp p k' := by
  induction p with
  | nil => rfl
  | cons e rest ih =>
      obtain ⟨k1, w⟩ := e
      by_cases hk : k1 = k
      · subst hk
        have hstep : setKeyAll ((k1, w) :: rest) k1 v = (k1, v) :: setKeyAll rest k1 v := by
          simp [setKeyAll]
        rw [hstep]
        simp [getProp, ih, Ne.symm hne]
      · have hstep : setKeyAll ((k1, w) :: rest) k v = (k1, w) :: setKeyAll rest k v := by
          simp [setKeyAll, hk]
        rw [hstep]
        simp [getProp, ih]

theorem getProp_append_single (p : Props) (k : String) (v : JsVal) (k' : String) :
    getProp (p ++ [(k, v)]) k' = if k' = k then some v else getProp p k' := by
  induction p with
  | nil =>
      by_cases hk : k' = k
      · subst hk
        simp [getProp]
      · simp [getProp, hk, if_neg (Ne.symm hk)]
  | cons e rest ih =>
      obtain ⟨k1, w⟩ := e
      by_cases hk : k' = k
      · subst hk
        simp [getProp, ih]
      · simp [getProp, ih, hk]

theorem getProp_setKey (p : Props) (k : String) (v : JsVal) (k' : String) :
    getProp (setKey p k v) k' = if k' = k then some v else getProp p k' := by
  unfold setKey
  cases h : hasKey p k
  · simp [getProp_append_single]
  · by_cases hk : k' = k
    · subst hk
      simp [getProp_setKeyAll_same, h]
    · simp [getProp_setKeyAll_other p k v k' hk, hk]

theorem upChar_ne_hyphen (c : Char) (h : isAsciiLetter c = true) :
    upChar c ≠ '-' := by
  unfold upChar
  by_cases hlow : 97 ≤ c.toNat ∧ c.toNat ≤ 122
  · rw [if_pos hlow]
    obtain ⟨h1, h2⟩ := hlow
    set n := c.toNat with hn
    interval_cases n <;> decide
  · rw [if_neg hlow]
    intro hc
    subst hc
    exact absurd h (by decide)

theorem camelCaseAux_cons_ne (c : Char) (rest : List Char) (hc : c ≠ '-') :
    camelCaseAux (c :: rest) = c :: camelCaseAux rest := by
  rw [camelCaseAux.eq_def]
  simp [hc]

theorem camelCaseAux_hyphen_letter (c2 : Char) (rest2 : List Char)
    (h : isAsciiLetter c2 = true) :
    camelCaseAux ('-' :: c2 :: rest2) = upChar c2 :: camelCaseAux rest2 := by
  rw [camelCaseAux.eq_def]
  simp [h]

theorem hyph_cons_ne (c : Char) (rest : List Char) (hc : c ≠ '-') :
    hyphensPrecedeLetters (c :: rest) = hyphensPrecedeLetters rest := by
  rw [hyphensPrecedeLetters.eq_def]
  simp [hc]

theorem isAsciiLetter_ne_hyphen (c : Char) (h : isAsciiLetter c = true) : c ≠ '-' := by
  intro hc
  subst hc
  exact absurd h (by decide)

theorem camelCaseAux_id_of_no_hyphen (l : List Char) (h : ∀ c ∈ l, c ≠ '-') :
    camelCaseAux l = l := by
  induction l with
  | nil => rfl
  | cons c rest ih =>
      have hc : c ≠ '-' := h c (List.mem_cons_self c rest)
      rw [camelCaseAux_cons_ne c rest hc,
        ih (fun x hx => h x (List.mem_cons_of_mem c hx))]

theorem camelCaseAux_no_hyphen (l : List Char) :
    hyphensPrecedeLetters l = true → ∀ c ∈ camelCaseAux l, c ≠ '-' := by
  induction l using camelCaseAux.induct with
  | case1 =>
      intro _ c hc
      exact absurd hc (List.not_mem_nil c)
  | case2 =>
      intro h
      exact absurd h (by decide)
  | case3 c2 rest2 hlet ih =>
      intro h
      have hc2 : c2 ≠ '-' := isAsciiLetter_ne_hyphen c2 hlet
      have hh : (isAsciiLetter c2 && hyphensPrecedeLetters (c2 :: rest2)) = true := h
      simp only [Bool.and_eq_true] at hh
      have hrest2 : hyphensPrecedeLetters rest2 = true := by
        have := hh.2
        rwa [hyph_cons_ne c2 rest2 hc2] at this
      rw [camelCaseAux_hyphen_letter c2 rest2 hlet]
      intro c hc
      rcases List.mem_cons.mp hc with h1 | h1
      · subst h1; exact upChar_ne_hyphen c2 hlet
      · exact ih hrest2 c h1
  | case4 c2 rest2 hlet ih =>
      intro h
      have hh : (isAsciiLetter c2 && hyphensPrecedeLetters (c2 :: rest2)) = true := h
      simp only [Bool.and_eq_true] at hh
      exact absurd hh.1 hlet
  | case5 c rest hc ih =>
      intro h
      have hrest : hyphensPrecedeLetters rest = true := by
        rwa [hyph_cons_ne c rest hc] at h
      rw [camelCaseAux_cons_ne c rest hc]
      intro x hx
      rcases List.mem_cons.mp hx with h1 | h1
      · subst h1; exact hc
      · exact ih hrest x h1

theorem getProp_spreadPairs (q p : Props) (k : String) :
    getProp (spreadPairs p q) k = orO (getProp q k) (getProp p k) := by
  induction q generalizing p with
  | nil => simp [spreadPairs, getProp, orO]
  | cons e rest ih =>
      obtain ⟨k1, v1⟩ := e
      have hstep : spreadPairs p ((k1, v1) :: rest) = spreadPairs (setKey p k1 v1) rest := rfl
      rw [hstep, ih, getProp_setKey]
      cases hr : getProp rest k
      · by_cases hk : k1 = k <;> simp [getProp, hr, hk, Ne.symm, orO]
      · simp [getProp, hr, orO]

-- ===========================================================================
-- Claim theorems
-- ===========================================================================

/-- C6: `collectProps` merges caller defaults, embedded data blocks and
recognised attributes with fixed precedence — attribute-derived over
embedded-block over defaults — and on defaults `a=1, b=2`, block
`b=3, c=4`, attribute `c=5` it yields exactly `a=1, b=3, c=5`. -/
theorem c6_collect_props_precedence :
    (∀ (el : EmbedElem) (d : Props) (k : String),
      getProp (collectProps el d) k =
        orO (getProp (getPropsFromAttributes el) k)
          (orO (getProp (getPropsFromScripts el) k) (getProp d k))) ∧
    collectProps elemC6 defaultsC6 =
      [("a", JsVal.num (.finite ⟨1, 1⟩)), ("b", JsVal.num (.finite ⟨3, 1⟩)),
       ("c", JsVal.num (.finite ⟨5, 1⟩))] := by
  constructor
  · intro el d k
    unfold collectProps
    rw [getProp_spreadPairs, getProp_spreadPairs, getProp_spreadPairs]
    have hnil : getProp ([] : Props) k = none := rfl
    rw [hnil, orO_none_right]
  · rfl

/-- C7: counterexample to the claimed coercion cascade. The attribute
value `" null "` (with spaces, so not the `null` literal and `NaN` under
`Number`) parses as the structured document `null`, which is neither an
object nor an array, yet the code keeps the parsed `null` — not the raw
string as the claim requires — because `typeof null === 'object'`. -/
theorem c7_null_whitespace_cex :
    jsonParse " null " = some JsVal.null ∧
    isObjOrArr JsVal.null = false ∧
    jsToNumber " null " = JsNumber.nan ∧
    parseAttrValue " null " = JsVal.null ∧
    parseAttrValue " null " ≠ JsVal.str " null " ∧
    parseAttrValueSpec " null " = JsVal.str " null " := by
  refine ⟨rfl, rfl, rfl, rfl, ?_, rfl⟩
  intro h
  have h2 : JsVal.null = JsVal.str " null " := h
  exact JsVal.noConfusion h2

/-- C7 (amended): the coercion cascade applies in order with first match
winning — `true`/`false`/`null` literals, then non-`NaN` nonempty
`Number` conversion, then a structured parse kept when the result is an
object, an array, **or `null`** (the source's typeof-object test admits
`null`), otherwise the raw string — together with the spec's concrete
vectors. -/
theorem c7_coercion_cascade_amended :
    (∀ v : String, parseAttrValue v = parseAttrValueSpecAmended v) ∧
    parseAttrValue "true" = JsVal.bool true ∧
    parseAttrValue "false" = JsVal.bool false ∧
    parseAttrValue "null" = JsVal.null ∧
    parseAttrValue "42" = JsVal.num (.finite ⟨42, 1⟩) ∧
    parseAttrValue "3.14" = JsVal.num (.finite ⟨314, 100⟩) ∧
    JsRat.toRat ⟨42, 1⟩ = 42 ∧
    JsRat.toRat ⟨314, 100⟩ = 157 / 50 ∧
    parseAttrValue "hello" = JsVal.str "hello" ∧
    parseAttrValue "\x7b\"a\":1\x7d" = JsVal.obj [("a", JsVal.num (.finite ⟨1, 1⟩))] ∧
    parseAttrValue "" = JsVal.str "" := by
  refine ⟨?_, rfl, rfl, rfl, rfl, rfl, by norm_num [JsRat.toRat],
    by norm_num [JsRat.toRat], rfl, rfl, rfl⟩
  intro v
  unfold parseAttrValue parseAttrValueSpecAmended
  have hobj : ∀ p : JsVal, typeofIsObject p = (isObjOrArr p || isNullVal p) := by
    intro p
    cases p <;> rfl
  split_ifs <;> try rfl
  cases hp : jsonParse v with
  | none => rfl
  | some p => simp [hobj p]

/-- C9: counterexample to idempotence over all strings. On `"a--b"` the
first pass rewrites only the second hyphen (`"a-B"`), and a second pass
then rewrites the first (`"aB"`), so converting twice differs from
converting once. -/
theorem c9_camelcase_double_hyphen_cex :
    camelCase "a--b" = "a-B" ∧
    camelCase (camelCase "a--b") = "aB" ∧
    camelCase (camelCase "a--b") ≠ camelCase "a--b" := by
  refine ⟨rfl, rfl, ?_⟩
  decide

/-- C9 (amended): the hyphen-to-hump conversion is idempotent on every
string in which each hyphen is immediately followed by an ASCII letter —
in particular on all well-formed attribute-name suffixes — and converting
`price` yields `price`, converting `discount-percent` yields
`discountPercent`. -/
theorem c9_camelcase_idempotent_amended (s : String)
    (h : hyphensPrecedeLetters s.data = true) :
    camelCase (camelCase s) = camelCase s ∧
    camelCase "price" = "price" ∧
    camelCase "discount-percent" = "discountPercent" := by
  refine ⟨?_, rfl, rfl⟩
  unfold camelCase
  exact congrArg String.mk
    (camelCaseAux_id_of_no_hyphen (camelCaseAux s.data) (camelCaseAux_no_hyphen s.data h))

/-- C9 (witness): the amended idempotence theorem applied to the concrete
input `discount-percent`. -/
theorem c9_camelcase_idempotent_witness :
    camelCase (camelCase "discount-percent") = camelCase "discount-percent" :=
  (c9_camelcase_idempotent_amended "discount-percent" (by decide)).1

-- ===========================================================================
-- Event-bus lemmas: a dispatch pass whose callbacks leave the topic's
-- subscriptions alone visits exactly the live entries, in order.
-- ===========================================================================

theorem liveIds_cons (x : Nat × Bool) (xs : List (Nat × Bool)) :
    liveIds (x :: xs) = if x.2 then liveIds xs else x.1 :: liveIds xs := by
  cases hx : x.2 <;> simp [liveIds, List.filterMap_cons, hx]

theorem emitLoop_pure (env : Nat → List BusOp) (t : String) (b : Bus)
    (hpure : ∀ id ∈ activeSubs b t, env id = []) :
    ∀ (fuel idx : Nat) (log : List Nat), (entriesOf b t).length - idx ≤ fuel →
      emitLoop env t fuel idx b log = (b, log ++ liveIds ((entriesOf b t).drop idx)) := by
  intro fuel
  induction fuel with
  | zero =>
      intro idx log hf
      have hle : (entriesOf b t).length ≤ idx := by omega
      rw [List.drop_eq_nil_of_le hle]
      simp [emitLoop, liveIds]
  | succ fuel ih =>
      intro idx log hf
      by_cases h : idx < (entriesOf b t).length
      · have hdrop : (entriesOf b t).drop idx
            = (entriesOf b t).get ⟨idx, h⟩ :: (entriesOf b t).drop (idx + 1) := by
          rw [List.drop_eq_getElem_cons h]
          rfl
        simp only [emitLoop, dif_pos h]
        cases he : ((entriesOf b t).get ⟨idx, h⟩).2
        · have hmem : ((entriesOf b t).get ⟨idx, h⟩).1 ∈ activeSubs b t := by
            refine List.mem_filterMap.mpr ⟨(entriesOf b t).get ⟨idx, h⟩, ?_, ?_⟩
            · exact List.get_mem _ _ _
            · rw [he]
              rfl
          rw [if_neg Bool.false_ne_true]
          rw [hpure _ hmem]
          have := ih (idx + 1) (log ++ [((entriesOf b t).get ⟨idx, h⟩).1]) (by omega)
          rw [show applyOps b [] = b from rfl, this, hdrop, liveIds_cons, he,
            if_neg Bool.false_ne_true, List.append_assoc]
          rfl
        · rw [if_pos rfl]
          have := ih (idx + 1) log (by omega)
          rw [this, hdrop, liveIds_cons, he, if_pos rfl]
      · have hle : (entriesOf b t).length ≤ idx := by omega
        rw [List.drop_eq_nil_of_le hle]
        simp only [emitLoop, dif_neg h]
        simp [liveIds]

/-- C2: counterexample to snapshot dispatch. With callback 0 subscribing
callback 1 to the same topic during dispatch, the live pass also invokes
callback 1 (snapshot dispatch would not); with callback 0 unsubscribing
the not-yet-reached callback 1, the live pass does not invoke callback 1
(snapshot dispatch would). -/
theorem c2_emit_snapshot_cex :
    (emitLive envSubDuring "x" 4 busOne).2 = [0, 1] ∧
    (emitSnapshot envSubDuring "x" busOne).2 = [0] ∧
    (emitLive envUnsubDuring "x" 4 busTwo).2 = [0] ∧
    (emitSnapshot envUnsubDuring "x" busTwo).2 = [0, 1] ∧
    ([0, 1] : List Nat) ≠ [0] := by
  exact ⟨by decide, by decide, by decide, by decide, by decide⟩

/-- C2 (amended): `emit` dispatches synchronously over the **live**
subscriber set, not a snapshot: when no invoked callback changes the
topic's subscriptions, exactly the at-emit-time subscribers are invoked
in order; a callback subscribed to the topic during the pass is also
invoked in that same pass, and a not-yet-reached callback unsubscribed
during the pass is not invoked. -/
theorem c2_emit_live_set_amended :
    (∀ (env : Nat → List BusOp) (t : String) (b : Bus) (fuel : Nat),
      (∀ id ∈ activeSubs b t, env id = []) → (entriesOf b t).length ≤ fuel →
      emitLive env t fuel b = (b, activeSubs b t)) ∧
    (emitLive envSubDuring "x" 4 busOne).2 = [0, 1] ∧
    (emitLive envUnsubDuring "x" 4 busTwo).2 = [0] := by
  refine ⟨?_, by decide, by decide⟩
  intro env t b fuel hpure hf
  unfold emitLive
  have := emitLoop_pure env t b hpure fuel 0 [] (by omega)
  simpa [activeSubs] using this

/-- C2 (witness): the amended theorem applied to a bus with one pure
subscriber of topic `x`. -/
theorem c2_emit_live_set_witness :
    emitLive (fun _ => []) "x" 1 busOne = (busOne, activeSubs busOne "x") :=
  c2_emit_live_set_amended.1 (fun _ => []) "x" busOne 1 (fun _ _ => rfl) (by decide)

-- ===========================================================================
-- Lifecycle lemmas
-- ===========================================================================

theorem removeFirstInst_of_not_mem (l : List WInst) (el : Nat)
    (h : ∀ i ∈ l, i.element ≠ el) : removeFirstInst l el = l := by
  induction l with
  | nil => rfl
  | cons i rest ih =>
      have hi : i.element ≠ el := h i (List.mem_cons_self i rest)
      simp only [removeFirstInst, if_neg hi]
      rw [ih (fun x hx => h x (List.mem_cons_of_mem i hx))]

theorem removeFirstInst_append_last (l : List WInst) (inst : WInst) (el : Nat)
    (h : ∀ i ∈ l, i.element ≠ el) (hinst : inst.element = el) :
    removeFirstInst (l ++ [inst]) el = l := by
  induction l with
  | nil => simp [removeFirstInst, hinst]
  | cons i rest ih =>
      have hi : i.element ≠ el := h i (List.mem_cons_self i rest)
      simp only [List.cons_append, removeFirstInst, if_neg hi]
      exact congrArg (fun x => i :: x) (ih (fun x hx => h x (List.mem_cons_of_mem i hx)))

theorem lookupMeta_setMetaList (m : List (Nat × Root)) (el : Nat) (r : Root) :
    lookupMeta (setMetaList m el r) el = some r := by
  induction m with
  | nil => simp [setMetaList, lookupMeta]
  | cons e rest ih =>
      obtain ⟨e1, r0⟩ := e
      by_cases he : e1 = el
      · subst he
        simp [setMetaList, lookupMeta]
      · simp only [setMetaList, if_neg he]
        simp only [lookupMeta, if_neg he]
        exact ih

-- ===========================================================================
-- C1: idempotence of unmount
-- ===========================================================================

/-- C1: counterexample — after a mount and an unmount, running the same
unmount closure a second time appends the element to the on-unmount hook
log again (the closure has no already-unmounted guard), so the hook IS
invoked a second time, although the registry stays unchanged and no error
occurs. -/
theorem c1_second_unmount_reinvokes_hook_cex :
    c1Once.unmountLog = [0] ∧
    c1Twice.unmountLog = [0, 0] ∧
    c1Once.instances = [] ∧
    c1Twice.instances = [] := by
  exact ⟨rfl, rfl, rfl, rfl⟩

/-- C1 (amended): unmounting an instance whose element is no longer in
the registry raises no error and does not shrink the registry — the
operation is a total function leaving `instances` unchanged — but it is
not a complete no-op: the empty render is re-issued and the `onUnmount`
hook is invoked again on every call. -/
theorem c1_unmount_registry_noop_amended (cfg : Config) (el : Nat) (r : Root)
    (st : HState) (hfree : ∀ i ∈ st.instances, i.element ≠ el)
    (hhook : cfg.hasUnmount = true) :
    (runUnmount cfg el r st).instances = st.instances ∧
    (runUnmount cfg el r st).unmountLog = st.unmountLog ++ [el] ∧
    (runUnmount cfg el r st).renderLog = st.renderLog ++ [REvent.clearR r] := by
  refine ⟨removeFirstInst_of_not_mem st.instances el hfree, ?_, rfl⟩
  show (if cfg.hasUnmount then st.unmountLog ++ [el] else st.unmountLog)
      = st.unmountLog ++ [el]
  simp [hhook]

/-- C1 (witness): the amended theorem applied to the concrete state after
mount and first unmount of element 0. -/
theorem c1_unmount_registry_noop_witness :
    c1Twice.instances = c1Once.instances ∧
    c1Twice.unmountLog = c1Once.unmountLog ++ [c1Mount.2.element] ∧
    c1Twice.renderLog = c1Once.renderLog ++ [REvent.clearR c1Mount.2.root] :=
  c1_unmount_registry_noop_amended cfgPlain c1Mount.2.element c1Mount.2.root c1Once
    (by intro i hi; exact absurd hi (List.not_mem_nil i)) rfl

-- ===========================================================================
-- Observer lemmas: what deliveries do to an active / inactive observer
-- ===========================================================================

theorem runUnmount_observers (cfg : Config) (el : Nat) (r : Root) (st : HState) :
    (runUnmount cfg el r st).observers = st.observers := rfl

theorem deliver_true_active (st : HState) (obsId : Nat) (o : Observer)
    (hobs : lookupObs st.observers obsId = some o) (hact : o.active = true) :
    deliver obsId [true] st
      = { st with renderLog := st.renderLog ++ [obsEvent o],
                  observers := deactivateObs st.observers obsId } := by
  unfold deliver
  rw [hobs]
  simp [hact]

theorem deliver_inactive (st : HState) (obsId : Nat) (o : Observer)
    (hobs : lookupObs st.observers obsId = some o) (hact : o.active = false)
    (entries : List Bool) :
    deliver obsId entries st = st := by
  unfold deliver
  rw [hobs]
  simp [hact]

theorem deliver_single_false (obsId : Nat) (st : HState) :
    deliver obsId [false] st = st := by
  unfold deliver
  cases h : lookupObs st.observers obsId with
  | none => rfl
  | some o => by_cases ha : o.active <;> simp [ha]

theorem lookupObs_deactivateObs (os : List (Nat × Observer)) (id : Nat) (o : Observer)
    (h : lookupObs os id = some o) :
    lookupObs (deactivateObs os id) id = some { o with active := false } := by
  induction os with
  | nil => exact absurd h (by simp [lookupObs])
  | cons e rest ih =>
      obtain ⟨i, o0⟩ := e
      by_cases hi : i = id
      · subst hi
        have ho : o0 = o := by
          have h2 : (if i = i then some o0 else lookupObs rest i) = some o := h
          rw [if_pos rfl] at h2
          exact Option.some.inj h2
        subst ho
        have hd : deactivateObs ((i, o0) :: rest) i
            = (i, { o0 with active := false }) :: deactivateObs rest i := by
          simp [deactivateObs]
        rw [hd]
        show (if i = i then some { o0 with active := false }
              else lookupObs (deactivateObs rest i) i) = some { o0 with active := false }
        rw [if_pos rfl]
      · have h2 : lookupObs rest id = some o := by
          have h3 : (if i = id then some o0 else lookupObs rest id) = some o := h
          rwa [if_neg hi] at h3
        have hd : deactivateObs ((i, o0) :: rest) id
            = (i, o0) :: deactivateObs rest id := by
          simp [deactivateObs, hi]
        rw [hd]
        show (if i = id then some o0 else lookupObs (deactivateObs rest id) id)
            = some { o with active := false }
        rw [if_neg hi]
        exact ih h2

theorem deliverSeq_cons (obsId : Nat) (b : Bool) (bs : List Bool) (st : HState) :
    deliverSeq obsId (b :: bs) st = deliverSeq obsId bs (deliver obsId [b] st) := rfl

theorem deliverSeq_inactive (obsId : Nat) (o : Observer) (hact : o.active = false)
    (bs : List Bool) :
    ∀ st : HState, lookupObs st.observers obsId = some o → deliverSeq obsId bs st = st := by
  induction bs with
  | nil => intro st _; rfl
  | cons b rest ih =>
      intro st hobs
      rw [deliverSeq_cons, deliver_inactive st obsId o hobs hact, ih st hobs]

theorem deliverSeq_once (obsId : Nat) (o : Observer) (hact : o.active = true)
    (bs : List Bool) :
    ∀ st : HState, lookupObs st.observers obsId = some o →
      (deliverSeq obsId bs st).renderLog
          = st.renderLog ++ (if bs.any (fun b => b) then [obsEvent o] else []) ∧
      (deliverSeq obsId bs st).observers
          = (if bs.any (fun b => b) then deactivateObs st.observers obsId
             else st.observers) := by
  induction bs with
  | nil =>
      intro st hobs
      simp [deliverSeq]
  | cons b rest ih =>
      intro st hobs
      cases b
      · rw [deliverSeq_cons, deliver_single_false]
        have := ih st hobs
        simpa [List.any_cons] using this
      · rw [deliverSeq_cons, deliver_true_active st obsId o hobs hact]
        have hobs2 : lookupObs (deactivateObs st.observers obsId) obsId
            = some { o with active := false } :=
          lookupObs_deactivateObs st.observers obsId o hobs
        rw [deliverSeq_inactive obsId { o with active := false } rfl rest
          { st with renderLog := st.renderLog ++ [obsEvent o],
                    observers := deactivateObs st.observers obsId } hobs2]
        simp [List.any_cons]

-- ===========================================================================
-- C3: what unmount does to a pending observation
-- ===========================================================================

/-- C3: counterexample — after a lazy mount of element 0 and an unmount
before the predicate fired, the observer is still registered and active,
and a subsequent qualifying visibility event appends an activation render
against the instance's render target to the runtime log. -/
theorem c3_visibility_after_unmount_cex :
    c3AfterUnmount.renderLog = [REvent.clearR (Root.host 0)] ∧
    lookupObs c3AfterUnmount.observers 0 = some ⟨0, Root.host 0, [], false, true⟩ ∧
    (deliver 0 [true] c3AfterUnmount).renderLog
      = [REvent.clearR (Root.host 0), REvent.paint (Root.host 0) []] := by
  exact ⟨rfl, rfl, rfl⟩

/-- C3 (amended): `unmount` does not cancel a pending observation — the
observer set is untouched by the unmount closure, and a subsequent
qualifying visibility event still triggers the activation render against
the instance's render target. -/
theorem c3_unmount_cancels_nothing_amended (cfg : Config) (el : Nat) (r : Root)
    (st : HState) (obsId : Nat) (o : Observer)
    (hobs : lookupObs st.observers obsId = some o) (hact : o.active = true) :
    (runUnmount cfg el r st).observers = st.observers ∧
    (deliver obsId [true] (runUnmount cfg el r st)).renderLog
      = st.renderLog ++ [REvent.clearR r, obsEvent o] := by
  refine ⟨rfl, ?_⟩
  have hobs2 : lookupObs (runUnmount cfg el r st).observers obsId = some o := hobs
  rw [deliver_true_active (runUnmount cfg el r st) obsId o hobs2 hact]
  show (runUnmount cfg el r st).renderLog ++ [obsEvent o]
      = st.renderLog ++ [REvent.clearR r, obsEvent o]
  rw [show (runUnmount cfg el r st).renderLog = st.renderLog ++ [REvent.clearR r] from rfl,
    List.append_assoc]
  rfl

/-- C3 (witness): the amended theorem applied to the lazily mounted
element 0 and its pending observer. -/
theorem c3_unmount_cancels_nothing_witness :
    (runUnmount cfgLazy 0 (Root.host 0) lazyMount.1).observers = lazyMount.1.observers ∧
    (deliver 0 [true] (runUnmount cfgLazy 0 (Root.host 0) lazyMount.1)).renderLog
      = lazyMount.1.renderLog
        ++ [REvent.clearR (Root.host 0), obsEvent ⟨0, Root.host 0, [], false, true⟩] :=
  c3_unmount_cancels_nothing_amended cfgLazy 0 (Root.host 0) lazyMount.1 0
    ⟨0, Root.host 0, [], false, true⟩ rfl rfl

-- ===========================================================================
-- C8: single-shot deferred activation
-- ===========================================================================

/-- C8: counterexample — one observer callback whose batch carries two
intersecting entries runs the activation render twice: `disconnect()`
stops later callbacks but does not abort the loop over the remaining
entries of the same batch, so activation is not "exactly once after the
first qualifying visibility event". -/
theorem c8_batch_double_render_cex :
    (deliver 0 [true, true] lazyMount.1).renderLog
      = [REvent.paint (Root.host 0) [], REvent.paint (Root.host 0) []] ∧
    (deliver 0 [true, true] lazyMount.1).renderLog.length = 2 := by
  exact ⟨rfl, rfl⟩

/-- C8 (amended): for a pending observation, no activation render occurs
before a qualifying entry; over any sequence of single-entry visibility
events the activation render occurs exactly once — with the first
qualifying event — and the observer is disconnected at that event, so
later events never re-render. (A single batched callback carrying
several intersecting entries renders once per such entry; disconnection
does not abort the in-progress pass.) -/
theorem c8_lazy_single_shot_amended (st : HState) (obsId : Nat) (o : Observer)
    (hobs : lookupObs st.observers obsId = some o) (hact : o.active = true) :
    (∀ bs : List Bool,
      (deliverSeq obsId bs st).renderLog
        = st.renderLog ++ (if bs.any (fun b => b) then [obsEvent o] else [])) ∧
    (∀ bs : List Bool, bs.any (fun b => b) = true →
      lookupObs (deliverSeq obsId bs st).observers obsId
        = some { o with active := false }) ∧
    (deliver obsId [true] st).renderLog = st.renderLog ++ [obsEvent o] := by
  refine ⟨?_, ?_, ?_⟩
  · intro bs
    exact (deliverSeq_once obsId o hact bs st hobs).1
  · intro bs hany
    have h2 := (deliverSeq_once obsId o hact bs st hobs).2
    rw [h2, if_pos hany]
    exact lookupObs_deactivateObs st.observers obsId o hobs
  · rw [deliver_true_active st obsId o hobs hact]

/-- C8 (witness): the amended theorem applied to the lazily mounted
element 0 with the event sequence hidden, visible, visible. -/
theorem c8_lazy_single_shot_witness :
    (deliverSeq 0 [false, true, true] lazyMount.1).renderLog
      = lazyMount.1.renderLog ++
        (if [false, true, true].any (fun b => b)
         then [obsEvent ⟨0, Root.host 0, [], false, true⟩] else []) ∧
    lookupObs (deliverSeq 0 [false, true, true] lazyMount.1).observers 0
      = some { (⟨0, Root.host 0, [], false, true⟩ : Observer) with active := false } :=
  ⟨(c8_lazy_single_shot_amended lazyMount.1 0 ⟨0, Root.host 0, [], false, true⟩ rfl rfl).1
      [false, true, true],
   (c8_lazy_single_shot_amended lazyMount.1 0 ⟨0, Root.host 0, [], false, true⟩ rfl rfl).2.1
      [false, true, true] rfl⟩

-- ===========================================================================
-- renderOne characterisations: mounting a free host, mounting an
-- occupied host
-- ===========================================================================

theorem renderOne_free_core (cfg : Config) (doc : Nat → EmbedElem) (el : Nat)
    (ov : Props) (st : HState) (hmeta : lookupMeta st.meta el = none) :
    (renderOne cfg doc el ov st).1.instances
        = st.instances ++ [(renderOne cfg doc el ov st).2] ∧
    (renderOne cfg doc el ov st).1.warnCount = st.warnCount ∧
    lookupMeta (renderOne cfg doc el ov st).1.meta el
        = some (renderOne cfg doc el ov st).2.root ∧
    (renderOne cfg doc el ov st).2.element = el := by
  unfold renderOne
  rw [hmeta]
  by_cases h1 : cfg.useShadow <;> by_cases h2 : cfg.lazy <;>
    by_cases h3 : cfg.hasMounted <;>
      simp [h1, h2, h3, lookupMeta_setMetaList]

theorem renderOne_occupied_core (cfg : Config) (doc : Nat → EmbedElem) (el : Nat)
    (ov : Props) (st : HState) (r : Root) (hmeta : lookupMeta st.meta el = some r) :
    (renderOne cfg doc el ov st).1.instances
        = removeFirstInst st.instances el ++ [(renderOne cfg doc el ov st).2] ∧
    (renderOne cfg doc el ov st).1.warnCount = st.warnCount + 1 ∧
    (renderOne cfg doc el ov st).2.element = el := by
  unfold renderOne
  rw [hmeta]
  by_cases h1 : cfg.useShadow <;> by_cases h2 : cfg.lazy <;>
    by_cases h3 : cfg.hasMounted <;>
      simp [h1, h2, h3, runUnmount]

-- ===========================================================================
-- C5: at most one live instance per host element
-- ===========================================================================

/-- C5: mounting twice onto the same (initially free) host element leaves
exactly one live instance for that element, leaves the registry length
equal to what a single mount produces, and emits one diagnostic: the
second mount finds the habitat metadata, force-unmounts the prior
instance (removing it from the registry) and then pushes its own. -/
theorem c5_one_live_instance_per_host (cfg : Config) (doc : Nat → EmbedElem) (el : Nat)
    (ov ov2 : Props) (st : HState) (hfree : ∀ i ∈ st.instances, i.element ≠ el)
    (hmeta : lookupMeta st.meta el = none) :
    ((renderOne cfg doc el ov2 (renderOne cfg doc el ov st).1).1.instances.filter
        (fun i => i.element = el)).length = 1 ∧
    (renderOne cfg doc el ov2 (renderOne cfg doc el ov st).1).1.instances.length
        = (renderOne cfg doc el ov st).1.instances.length ∧
    (renderOne cfg doc el ov2 (renderOne cfg doc el ov st).1).1.warnCount
        = (renderOne cfg doc el ov st).1.warnCount + 1 := by
  obtain ⟨hI1, hW1, hM1, hE1⟩ := renderOne_free_core cfg doc el ov st hmeta
  obtain ⟨hI2, hW2, hE2⟩ :=
    renderOne_occupied_core cfg doc el ov2 (renderOne cfg doc el ov st).1
      (renderOne cfg doc el ov st).2.root hM1
  have hrem : removeFirstInst (renderOne cfg doc el ov st).1.instances el
      = st.instances := by
    rw [hI1]
    exact removeFirstInst_append_last st.instances _ el hfree hE1
  refine ⟨?_, ?_, hW2⟩
  · rw [hI2, hrem, List.filter_append]
    have hnil : List.filter (fun i => decide (i.element = el)) st.instances = [] := by
      rw [List.filter_eq_nil_iff]
      intro a ha
      simp [hfree a ha]
    rw [hnil]
    simp [List.filter, hE2]
  · rw [hI2, hrem, hI1]
    simp

/-- C5 (witness): mounting element 0 twice from the empty state. -/
theorem c5_one_live_instance_witness :
    ((renderOne cfgPlain docEmpty 0 []
        (renderOne cfgPlain docEmpty 0 [] initState).1).1.instances.filter
          (fun i => i.element = 0)).length = 1 ∧
    (renderOne cfgPlain docEmpty 0 []
        (renderOne cfgPlain docEmpty 0 [] initState).1).1.instances.length
      = (renderOne cfgPlain docEmpty 0 [] initState).1.instances.length ∧
    (renderOne cfgPlain docEmpty 0 []
        (renderOne cfgPlain docEmpty 0 [] initState).1).1.warnCount
      = (renderOne cfgPlain docEmpty 0 [] initState).1.warnCount + 1 :=
  c5_one_live_instance_per_host cfgPlain docEmpty 0 [] [] initState
    (by intro i hi; exact absurd hi (List.not_mem_nil i)) rfl

-- ===========================================================================
-- C10: lazy mount still completes its bookkeeping synchronously
-- ===========================================================================

/-- C10: with deferred (lazy) activation configured, `renderOne` still
completes its bookkeeping synchronously: the returned instance is pushed
into the registry, the habitat metadata is attached to the host, the
`onMounted` hook is invoked at mount time and a pending observer is
registered, while no runtime render has occurred yet. -/
theorem c10_lazy_mount_bookkeeping (cfg : Config) (doc : Nat → EmbedElem) (el : Nat)
    (ov : Props) (st : HState) (hmeta : lookupMeta st.meta el = none)
    (hlazy : cfg.lazy = true) (hmounted : cfg.hasMounted = true) :
    (renderOne cfg doc el ov st).1.instances
        = st.instances ++ [(renderOne cfg doc el ov st).2] ∧
    lookupMeta (renderOne cfg doc el ov st).1.meta el
        = some (renderOne cfg doc el ov st).2.root ∧
    (renderOne cfg doc el ov st).1.mountedLog = st.mountedLog ++ [el] ∧
    (renderOne cfg doc el ov st).1.renderLog = st.renderLog ∧
    (renderOne cfg doc el ov st).1.observers.length = st.observers.length + 1 := by
  unfold renderOne
  rw [hmeta]
  by_cases h1 : cfg.useShadow <;> simp [h1, hlazy, hmounted, lookupMeta_setMetaList]

/-- C10 (witness): the lazy mount of element 0 from the empty state. -/
theorem c10_lazy_mount_bookkeeping_witness :
    lazyMount.1.instances = initState.instances ++ [lazyMount.2] ∧
    lookupMeta lazyMount.1.meta 0 = some lazyMount.2.root ∧
    lazyMount.1.mountedLog = initState.mountedLog ++ [0] ∧
    lazyMount.1.renderLog = initState.renderLog ∧
    lazyMount.1.observers.length = initState.observers.length + 1 :=
  c10_lazy_mount_bookkeeping cfgLazy docEmpty 0 [] initState rfl rfl rfl

-- ===========================================================================
-- C4: the instance's props field after update
-- ===========================================================================

/-- C4: after `update(\x7bb: 2\x7d)` on an instance mounted with merged
properties `\x7ba: 1\x7d`, the closure-local props variable and the
re-render both carry the merged `\x7ba: 1, b: 2\x7d`, but the publicly
readable `props` field of the instance — including the copy held in the
registry — still carries the mount-time `\x7ba: 1\x7d`: `update`
reassigns only the closure-local variable, never the instance record. -/
theorem c4_update_stale_props_field :
    c4Mount.2.props = [("a", JsVal.num (.finite ⟨1, 1⟩))] ∧
    c4AfterUpdate.instances = [c4Mount.2] ∧
    lookupCell c4AfterUpdate.cells c4Mount.2.cell
      = some [("a", JsVal.num (.finite ⟨1, 1⟩)), ("b", JsVal.num (.finite ⟨2, 1⟩))] ∧
    c4AfterUpdate.renderLog
      = [REvent.paint (Root.host 0) [("a", JsVal.num (.finite ⟨1, 1⟩))],
         REvent.paint (Root.host 0)
           [("a", JsVal.num (.finite ⟨1, 1⟩)), ("b", JsVal.num (.finite ⟨2, 1⟩))]] ∧
    c4Mount.2.props
      ≠ [("a", JsVal.num (.finite ⟨1, 1⟩)), ("b", JsVal.num (.finite ⟨2, 1⟩))] := by
  refine ⟨rfl, rfl, rfl, rfl, ?_⟩
  intro h
  have h2 : [("a", JsVal.num (.finite ⟨1, 1⟩))]
      = [("a", JsVal.num (.finite ⟨1, 1⟩)), ("b", JsVal.num (.finite ⟨2, 1⟩))] := h
  simp at h2

end PreactEmbed
